import Mathlib

/-!
Shallow embedding of the Solana-Pay-UI payment core:
the payment session state machine (`PaymentProvider.tsx`) and the
transaction reconciler with its exponential-backoff combinator
(`TransactionsProvider`).  Decimal amounts carried by BigNumber in the
source are modelled as rationals (`ℚ`); public keys, signatures and
base58 addresses are modelled as strings.
-/

namespace SolanaPayUI

/-- Payment session status, from `PaymentStatus` in `usePayment`. -/
inductive PaymentStatus where
  | New
  | Pending
  | Confirmed
deriving DecidableEq, Repr

/-- Ledger confirmation tiers reported by `getSignatureStatus(es)`. -/
inductive ConfStatus where
  | processed
  | confirmed
  | finalized
deriving DecidableEq, Repr

/-- Session state owned by `PaymentProvider`: the four `useState` fields
`amount`, `memo`, `reference`, `status`. -/
structure Session where
  amount : Option ℚ
  memo : Option String
  reference : Option String
  status : PaymentStatus
deriving DecidableEq, Repr

/-- The `reset()` callback from `PaymentProvider.tsx`: clears all fields, returns to
`New`, and navigates to `/new`.  The pair's second component is the
navigation target, if any. -/
def reset : Session × Option String :=
  (⟨none, none, none, PaymentStatus.New⟩, some "/new")

/-- The `generate()` callback from `PaymentProvider.tsx`: guarded on
`status === PaymentStatus.New && !reference`; mints a fresh key `k`
(modelled as a parameter), sets status to `Pending`, navigates to
`/pending`; otherwise does nothing. -/
def generate (k : String) (s : Session) : Session × Option String :=
  if s.status = PaymentStatus.New ∧ s.reference = none then
    ({ s with reference := some k, status := PaymentStatus.Pending }, some "/pending")
  else
    (s, none)

/-- The `setAmount` setter handed out through the context value: the raw React state
setter, unguarded by status. -/
def setAmount (a : Option ℚ) (s : Session) : Session :=
  { s with amount := a }

/-- The `setMemo` setter handed out through the context value: the raw React state
setter, unguarded by status. -/
def setMemo (m : Option String) (s : Session) : Session :=
  { s with memo := m }

/-- Outcome of one watcher poll: `findReference` either throws a
`FindReferenceError` (`notFound`), throws some other error (`rpcError`),
or yields a signature, after which `getSignatureStatus` yields an
optional confirmation tier (`none` when `txStatus.value` is null or
carries no `confirmationStatus`). -/
inductive FindResult where
  | found (sig : String) (st : Option ConfStatus)
  | notFound
  | rpcError
deriving DecidableEq, Repr

/-- One invocation of `checkTransaction` from `PaymentProvider.tsx`,
lines 66–81: on a found signature whose status is exactly `'confirmed'`
or `'finalized'`, set status to `Confirmed` and navigate to
`/confirmed`; in every other case (lower tier, missing status, not
found, other error) leave the session untouched. -/
def checkTransaction (r : FindResult) (s : Session) : Session × Option String :=
  match r with
  | FindResult.found _ st =>
      if st = some ConfStatus.confirmed ∨ st = some ConfStatus.finalized then
        ({ s with status := PaymentStatus.Confirmed }, some "/confirmed")
      else
        (s, none)
  | FindResult.notFound => (s, none)
  | FindResult.rpcError => (s, none)

/-- The watcher `useEffect` guard (line 64): the polling interval is
installed only while `status = Pending` and a reference exists; the
effect cleanup (`clearInterval`) removes it otherwise. -/
def watcherActive (s : Session) : Bool :=
  s.status = PaymentStatus.Pending ∧ s.reference ≠ none

/-! ### Exponential backoff (`exponentialBackoff`, part_000 lines 21–32) -/

/-- Observable outcome of one `exponentialBackoff` call: whether it
returned `true`, how many times it invoked the action, and the list of
sleep durations it performed, in order. -/
structure BackoffResult where
  success : Bool
  calls : ℕ
  sleeps : List ℕ
deriving DecidableEq, Repr

/-- Loop body of `exponentialBackoff`, starting at iteration `i`.
`fn j = true` models the `j`-th invocation of the action resolving,
`fn j = false` models it throwing.  Mirrors the source exactly: while
`i < maxRetries`, try `fn i`; on success return `true`; on the final
failure (`i === maxRetries - 1`) return `false` without sleeping;
otherwise sleep `initialDelay * 2 ^ i` and continue.  `maxRetries` is an
integer because a JS caller may pass a non-positive count, in which case
the loop body never runs. -/
def backoffAux (fn : ℕ → Bool) (maxRetries : ℤ) (initialDelay : ℕ) (i : ℕ) :
    BackoffResult :=
  if h : (i : ℤ) < maxRetries then
    if fn i then
      ⟨true, 1, []⟩
    else if (i : ℤ) = maxRetries - 1 then
      ⟨false, 1, []⟩
    else
      let r := backoffAux fn maxRetries initialDelay (i + 1)
      ⟨r.success, r.calls + 1, initialDelay * 2 ^ i :: r.sleeps⟩
  else
    ⟨false, 0, []⟩
termination_by (maxRetries - i).toNat
decreasing_by
  omega

/-- The full `exponentialBackoff(fn, maxRetries, initialDelay)` call. -/
def exponentialBackoff (fn : ℕ → Bool) (maxRetries : ℤ) (initialDelay : ℕ) :
    BackoffResult :=
  backoffAux fn maxRetries initialDelay 0

/-! ### Reconciler data model (`TransactionsProvider`, part_000) -/

/-- The `LAMPORTS_PER_SOL` constant from `@solana/web3.js`. -/
def LAMPORTS_PER_SOL : ℕ := 1000000000

/-- Modelled from the spec: `MAX_CONFIRMATIONS` lives in
`src/utils/constants`, which is not among the sources; the spec calls it
"the configured maximum confirmation count" and an external tunable, so
its numeric value is arbitrary here — no claim depends on it. -/
def MAX_CONFIRMATIONS : ℕ := 32

/-- The `info` field of a parsed transfer instruction: the fields the
reconciler reads.  Either may be absent in raw JSON. -/
structure TransferInfo where
  source : Option String
  destination : Option String
deriving DecidableEq, Repr

/-- The `parsed` payload of a `ParsedInstruction`: `parsed?.type` and
`parsed.info`. -/
structure ParsedPayload where
  type : Option String
  info : Option TransferInfo
deriving DecidableEq, Repr

/-- A parsed instruction carrying a `program` tag (the
`'program' in instruction` branch of the source). -/
structure ParsedInstr where
  program : String
  parsed : ParsedPayload
deriving DecidableEq, Repr

/-- A top-level instruction: either partially decoded (no `program`
field, rejected by the extraction) or parsed. -/
inductive Instruction where
  | partiallyDecoded
  | parsed (p : ParsedInstr)
deriving DecidableEq, Repr

/-- A pre/post token balance entry.  `uiAmountString` is modelled by the
rational value the display string denotes, absent when the entry carries
no displayable amount. -/
structure TokenBalance where
  accountIndex : ℕ
  uiAmountString : Option ℚ
deriving DecidableEq, Repr

/-- The `parsedTransaction.meta` record: the fields the reconciler reads.  Native
balances are in lamports and run parallel to `accountKeys`. -/
structure TxMeta where
  err : Option String
  preBalances : List ℕ
  postBalances : List ℕ
  preTokenBalances : Option (List TokenBalance)
  postTokenBalances : Option (List TokenBalance)
deriving DecidableEq, Repr

/-- The `parsedTransaction.transaction.message` record. -/
structure TxMessage where
  accountKeys : List String
  instructions : List Instruction
deriving DecidableEq, Repr

/-- A `ParsedTransactionWithMeta` as read by the reconciler.  `meta` and
`blockTime` may be null. -/
structure ParsedTx where
  meta : Option TxMeta
  blockTime : Option ℕ
  message : TxMessage
deriving DecidableEq, Repr

/-- One entry of `getSignatureStatuses(...).value`. -/
structure SigStatus where
  confirmationStatus : Option ConfStatus
  confirmations : Option ℕ
deriving DecidableEq, Repr

/-- A reconciled `Transaction` record as published to
`TransactionsContext` (the spec's TransferRecord).  The source renders
`amount` with `.toString()`; the rational value it denotes is kept. -/
structure TransferRecord where
  signature : String
  amount : ℚ
  timestamp : ℕ
  error : Option String
  status : ConfStatus
  confirmations : ℕ
deriving DecidableEq, Repr

/-- The native-mode balance-delta step (part_000 lines 156–165): locate
the recipient's index among `accountKeys`, read the lamport balances at
that index, and convert to SOL.  Returns `none` when `findIndex` yields
`-1`.  The embedding reads out-of-range balance entries as `0`; the
ledger interface guarantees the balance arrays run parallel to
`accountKeys`, so an index found in `accountKeys` is in range. -/
def nativeAmounts (recipient : String) (message : TxMessage) (meta : TxMeta) :
    Option (ℚ × ℚ) :=
  match message.accountKeys.findIdx? (· = recipient) with
  | none => none
  | some accountIndex =>
      let preBalance := meta.preBalances.getD accountIndex 0
      let postBalance := meta.postBalances.getD accountIndex 0
      some ((preBalance : ℚ) / (LAMPORTS_PER_SOL : ℚ),
            (postBalance : ℚ) / (LAMPORTS_PER_SOL : ℚ))

/-- The token-mode balance step (part_000 lines 177–193): locate the
associated token account's index, find the pre/post token-balance
entries carrying that index, and require both to hold a displayable
amount. -/
def tokenAmounts (associatedToken : String) (message : TxMessage) (meta : TxMeta) :
    Option (ℚ × ℚ) :=
  match message.accountKeys.findIdx? (· = associatedToken) with
  | none => none
  | some accountIndex =>
      match (meta.preTokenBalances.getD []).find? (·.accountIndex = accountIndex) with
      | none => none
      | some preBalance =>
          match preBalance.uiAmountString with
          | none => none
          | some preAmount =>
              match (meta.postTokenBalances.getD []).find? (·.accountIndex = accountIndex) with
              | none => none
              | some postBalance =>
                  match postBalance.uiAmountString with
                  | none => none
                  | some postAmount => some (preAmount, postAmount)

/-- The payment-mode branch of the extraction rule (part_000 lines
145–194): in native mode the single instruction must be a
`system`/`transfer` whose destination is the recipient and whose source
is not; in token mode an `spl-token` `transfer`/`transferChecked` to the
resolved token account, likewise excluding self-transfers; then the
pre/post amounts are computed.  `info?.destination !== x` is captured by
`info.bind destination = some x` failing; `info.source === x` by
`info.bind source = some x`. -/
def instructionAmounts (recipient : String) (associatedToken : Option String)
    (p : ParsedInstr) (message : TxMessage) (meta : TxMeta) : Option (ℚ × ℚ) :=
  match associatedToken with
  | none =>
      if p.program = "system" ∧ p.parsed.type = some "transfer" then
        if p.parsed.info.bind (·.destination) = some recipient then
          if p.parsed.info.bind (·.source) = some recipient then none
          else nativeAmounts recipient message meta
        else none
      else none
  | some ata =>
      if p.program = "spl-token" ∧
          (p.parsed.type = some "transfer" ∨
           p.parsed.type = some "transferChecked") then
        if p.parsed.info.bind (·.destination) = some ata then
          if p.parsed.info.bind (·.source) = some ata then none
          else tokenAmounts ata message meta
        else none
      else none

/-- The per-signature matching/extraction rule of Stage B (part_000
lines 128–213): the body of the `signatures.map` callback.  Returns
`none` wherever the source's early `return` discards the signature.
`if timestamp = 0` mirrors the JS falsiness of `!timestamp` for a zero
`blockTime`. -/
def processTransaction (recipient : String) (associatedToken : Option String)
    (signature : String) (parsedTransaction : Option ParsedTx)
    (signatureStatus : Option SigStatus) : Option TransferRecord :=
  match parsedTransaction with
  | none => none
  | some tx =>
    match tx.meta with
    | none => none
    | some meta =>
      match signatureStatus with
      | none => none
      | some sigStatus =>
        match tx.blockTime, sigStatus.confirmationStatus with
        | some timestamp, some status =>
          if timestamp = 0 then none
          else
            match tx.message.instructions with
            | [instruction] =>
              match instruction with
              | Instruction.partiallyDecoded => none
              | Instruction.parsed p =>
                match instructionAmounts recipient associatedToken p tx.message meta with
                | none => none
                | some (preAmount, postAmount) =>
                  if postAmount < preAmount then none
                  else some
                    { signature := signature
                      amount := postAmount - preAmount
                      timestamp := timestamp
                      error := meta.err
                      status := status
                      confirmations :=
                        if status = ConfStatus.finalized then MAX_CONFIRMATIONS
                        else sigStatus.confirmations.getD 0 }
            | _ => none
        | _, _ => none

/-- The full Stage B publish (part_000 lines 126–215):
`signatures.map(processTransaction).filter(Boolean)`.  Indexing into the
two fetched arrays reads `none` out of range, as JS reads `undefined`. -/
def stageBTransactions (recipient : String) (associatedToken : Option String)
    (signatures : List String) (parsedTransactions : List (Option ParsedTx))
    (signatureStatuses : List (Option SigStatus)) : List TransferRecord :=
  (List.range signatures.length).filterMap fun i =>
    processTransaction recipient associatedToken (signatures.getD i "")
      (parsedTransactions.getD i none) (signatureStatuses.getD i none)

/-! ### Outer polling cadence (part_000 lines 92–100 and 219–227) -/

/-- The persistent-delay update performed by `run` after each
`exponentialBackoff` call: reset to 1000 on success, double capped at
30000 on failure. -/
def outerStep (success : Bool) (currentDelay : ℕ) : ℕ :=
  if success then 1000 else min (currentDelay * 2) 30000

/-- The delay scheduled after the `n`-th consecutive failed outer poll:
`failDelays 0 = 1000` is the delay in force after the preceding success
(`currentDelay` starts at, and resets to, 1000), each failure then
doubles it up to the cap. -/
def failDelays : ℕ → ℕ
  | 0 => 1000
  | n + 1 => outerStep false (failDelays n)

/-! ### Loading flag (part_000 lines 76–90 and 117–217) -/

/-- What one attempt of a Stage A/B backoff action does, as seen from
the `loading` flag: `ok` — the RPC resolves, the liveness check passes,
results are published and `setLoading(false)` runs; `cancelled` — the
RPC resolves but `changed` is set, so the action returns early (a
*successful* return for `exponentialBackoff`) without touching
`loading`; `threw` — the RPC rejects after `setLoading(true)`. -/
inductive AttemptOutcome where
  | ok
  | cancelled
  | threw
deriving DecidableEq, Repr

/-- The `exponentialBackoff` loop of a Stage A/B iteration, tracking the
`loading` flag.  Every attempt begins with `setLoading(true)`; only the
`ok` outcome reaches `setLoading(false)`.  Returns
`(success, loading afterwards)`. -/
def backoffLoadingAux (outcome : ℕ → AttemptOutcome) (maxRetries : ℤ) (i : ℕ)
    (loading : Bool) : Bool × Bool :=
  if _h : (i : ℤ) < maxRetries then
    match outcome i with
    | AttemptOutcome.ok => (true, false)
    | AttemptOutcome.cancelled => (true, true)
    | AttemptOutcome.threw =>
        if (i : ℤ) = maxRetries - 1 then (false, true)
        else backoffLoadingAux outcome maxRetries (i + 1) true
  else (false, loading)
termination_by (maxRetries - i).toNat
decreasing_by
  omega

/-- One outer Stage A/B polling iteration as seen from the `loading`
flag: the source runs `exponentialBackoff(fn, 5, currentDelay)`. -/
def stageIterationLoading (outcome : ℕ → AttemptOutcome) (loading : Bool) :
    Bool × Bool :=
  backoffLoadingAux outcome 5 0 loading

/-! ### Watcher cancellation (`PaymentProvider.tsx` lines 63–85) -/

/-- The watcher's world: the session, the last navigation published, and
whether the effect cleanup has run `clearInterval`. -/
structure WatchWorld where
  session : Session
  route : Option String
  intervalCleared : Bool
deriving DecidableEq, Repr

/-- Effect of `reset()` while a watcher is installed: the session leaves
`Pending`, so the effect cleanup runs `clearInterval`, and all fields
are cleared. -/
def resetWorld (_w : WatchWorld) : WatchWorld :=
  { session := reset.1, route := reset.2, intervalCleared := true }

/-- Resumption of a `checkTransaction` call that was in flight: the
callback body (lines 66–81) publishes `setStatus`/`navigate` directly —
there is no liveness flag in it — so its effect is `checkTransaction`
whatever `intervalCleared` says. -/
def resumeInFlight (r : FindResult) (w : WatchWorld) : WatchWorld :=
  let out := checkTransaction r w.session
  { w with
    session := out.1
    route := match out.2 with
             | some t => some t
             | none => w.route }

/-! ### Theorems -/

/-- C7: `generate()` changes nothing unless `status = New` and
`reference = null`; when that precondition holds, the resulting session
has a fresh non-null reference and status `Pending`. -/
theorem generate_spec (k : String) (s : Session) :
    (¬(s.status = PaymentStatus.New ∧ s.reference = none) →
      generate k s = (s, none)) ∧
    (s.status = PaymentStatus.New ∧ s.reference = none →
      (generate k s).1.reference = some k ∧
      (generate k s).1.status = PaymentStatus.Pending) := by
  unfold generate
  by_cases h : s.status = PaymentStatus.New ∧ s.reference = none
  · simp [h]
  · simp [h]

/-- Witness for `generate_spec` at a fresh session. -/
theorem generate_spec_witness :
    (generate "key1" ⟨none, none, none, PaymentStatus.New⟩).1.reference = some "key1" ∧
    (generate "key1" ⟨none, none, none, PaymentStatus.New⟩).1.status = PaymentStatus.Pending :=
  (generate_spec "key1" ⟨none, none, none, PaymentStatus.New⟩).2 ⟨rfl, rfl⟩

/-- C2: from `Pending`, one watcher poll sets status to `Confirmed` iff
the reference was found and the fetched confirmation status is exactly
`confirmed` or `finalized`; in every other case the poll leaves the
session untouched, so the status remains `Pending`. -/
theorem watcher_confirm_guard (r : FindResult) (s : Session)
    (hs : s.status = PaymentStatus.Pending) :
    ((checkTransaction r s).1.status = PaymentStatus.Confirmed ↔
      ∃ sig st, r = FindResult.found sig st ∧
        (st = some ConfStatus.confirmed ∨ st = some ConfStatus.finalized)) ∧
    (¬(∃ sig st, r = FindResult.found sig st ∧
        (st = some ConfStatus.confirmed ∨ st = some ConfStatus.finalized)) →
      (checkTransaction r s).1 = s ∧
      (checkTransaction r s).1.status = PaymentStatus.Pending) := by
  cases r with
  | found sig st =>
      by_cases h : st = some ConfStatus.confirmed ∨ st = some ConfStatus.finalized
      · refine ⟨⟨fun _ => ⟨sig, st, rfl, h⟩, fun _ => ?_⟩,
          fun hn => absurd ⟨sig, st, rfl, h⟩ hn⟩
        simp [checkTransaction, h]
      · have hred : checkTransaction (FindResult.found sig st) s = (s, none) := by
          simp [checkTransaction, h]
        rw [hred]
        refine ⟨⟨fun hc => ?_, fun he => ?_⟩, fun _ => ⟨rfl, hs⟩⟩
        · rw [hs] at hc; exact PaymentStatus.noConfusion hc
        · obtain ⟨sig', st', heq, h'⟩ := he
          injection heq with h1 h2
          rw [← h2] at h'
          exact absurd h' h
  | notFound => simp [checkTransaction, hs]
  | rpcError => simp [checkTransaction, hs]

/-- Witness for `watcher_confirm_guard`: a not-found poll on a pending
session leaves it pending. -/
theorem watcher_confirm_guard_witness :
    (checkTransaction FindResult.notFound
      ⟨some 2, none, some "ref", PaymentStatus.Pending⟩).1.status = PaymentStatus.Pending :=
  ((watcher_confirm_guard FindResult.notFound
      ⟨some 2, none, some "ref", PaymentStatus.Pending⟩ rfl).2
    (by rintro ⟨sig, st, h, -⟩; exact FindResult.noConfusion h)).2

/-- C5 counterexample: `setAmount` is the raw state setter handed out
through the context value; called on a `Pending` session it changes
`amount`, so `amount` is not mutable only while `status = New`. -/
theorem setAmount_mutates_while_pending :
    (⟨none, none, some "ref", PaymentStatus.Pending⟩ : Session).status ≠ PaymentStatus.New ∧
    (setAmount (some 5) ⟨none, none, some "ref", PaymentStatus.Pending⟩).amount = some 5 ∧
    setAmount (some 5) ⟨none, none, some "ref", PaymentStatus.Pending⟩ ≠
      (⟨none, none, some "ref", PaymentStatus.Pending⟩ : Session) := by
  refine ⟨by simp, rfl, by simp [setAmount]⟩

/-- C5 amended: `generate` and the watcher never change `amount` or
`memo` in any status, but `setAmount`/`setMemo` are unguarded — they
overwrite `amount`/`memo` whatever the status is. -/
theorem session_amount_memo_mutation (k : String) (r : FindResult) (s : Session)
    (a : Option ℚ) (m : Option String) :
    ((generate k s).1.amount = s.amount ∧ (generate k s).1.memo = s.memo) ∧
    ((checkTransaction r s).1.amount = s.amount ∧
      (checkTransaction r s).1.memo = s.memo) ∧
    ((setAmount a s).amount = a ∧ (setAmount a s).memo = s.memo ∧
      (setAmount a s).status = s.status) ∧
    ((setMemo m s).memo = m ∧ (setMemo m s).amount = s.amount ∧
      (setMemo m s).status = s.status) := by
  refine ⟨?_, ?_, ⟨rfl, rfl, rfl⟩, ⟨rfl, rfl, rfl⟩⟩
  · unfold generate
    split <;> simp
  · cases r with
    | found sig st =>
        by_cases h : st = some ConfStatus.confirmed ∨ st = some ConfStatus.finalized
        · simp [checkTransaction, h]
        · simp [checkTransaction, h]
    | notFound => exact ⟨rfl, rfl⟩
    | rpcError => exact ⟨rfl, rfl⟩

/-- C4 counterexample: `reset()` clears the interval, yet a
`checkTransaction` call already in flight still publishes: resuming it
after cancellation sets status to `Confirmed` and navigates to
`/confirmed`, because the callback body contains no liveness check. -/
theorem cancelled_watcher_still_publishes :
    (resetWorld ⟨⟨some 1, none, some "ref", PaymentStatus.Pending⟩, some "/pending", false⟩).intervalCleared = true ∧
    (resetWorld ⟨⟨some 1, none, some "ref", PaymentStatus.Pending⟩, some "/pending", false⟩).session.status = PaymentStatus.New ∧
    (resumeInFlight (FindResult.found "sig" (some ConfStatus.confirmed))
      (resetWorld ⟨⟨some 1, none, some "ref", PaymentStatus.Pending⟩, some "/pending", false⟩)).session.status = PaymentStatus.Confirmed ∧
    (resumeInFlight (FindResult.found "sig" (some ConfStatus.confirmed))
      (resetWorld ⟨⟨some 1, none, some "ref", PaymentStatus.Pending⟩, some "/pending", false⟩)).route = some "/confirmed" := by
  refine ⟨rfl, rfl, rfl, rfl⟩

/-- C4 amended: leaving `Pending` clears the interval, so no further
polls are scheduled (`watcherActive` is false after `reset`), but the
result an in-flight callback publishes is `checkTransaction` of the poll
result, independent of the cancellation flag — stale results are not
discarded. -/
theorem watcher_cancellation_behavior (w : WatchWorld) (r : FindResult) :
    (resumeInFlight r w).session = (checkTransaction r w.session).1 ∧
    (resumeInFlight r { w with intervalCleared := true }).session =
      (resumeInFlight r { w with intervalCleared := false }).session ∧
    watcherActive (resetWorld w).session = false := by
  exact ⟨rfl, rfl, rfl⟩

/-- Characterisation of the `exponentialBackoff` loop from iteration `i`
on: success is equivalent to some in-range attempt succeeding; on
success the last call is the first succeeding attempt; on failure every
in-range attempt was made; the sleeps are `d * 2 ^ j` for every
non-final failed attempt `j`; the call count never exceeds the remaining
attempts. -/
theorem backoffAux_spec (fn : ℕ → Bool) (mr : ℤ) (d : ℕ) (i : ℕ) :
    ((backoffAux fn mr d i).success = true ↔
      ∃ j : ℕ, i ≤ j ∧ (j : ℤ) < mr ∧ fn j = true)
    ∧ ((backoffAux fn mr d i).success = true →
        1 ≤ (backoffAux fn mr d i).calls ∧
        fn (i + (backoffAux fn mr d i).calls - 1) = true ∧
        ∀ j : ℕ, i ≤ j → j < i + (backoffAux fn mr d i).calls - 1 → fn j = false)
    ∧ ((backoffAux fn mr d i).success = false →
        (backoffAux fn mr d i).calls = (mr - i).toNat)
    ∧ (backoffAux fn mr d i).sleeps
        = (List.range' i ((backoffAux fn mr d i).calls - 1)).map (fun j => d * 2 ^ j)
    ∧ (backoffAux fn mr d i).calls ≤ (mr - i).toNat := by
  induction i using backoffAux.induct fn mr d with
  | case1 x h1 h2 =>
      have hred : backoffAux fn mr d x = ⟨true, 1, []⟩ := by
        rw [backoffAux]; simp [h1, h2]
      rw [hred]
      refine ⟨⟨fun _ => ⟨x, le_refl x, h1, h2⟩, fun _ => rfl⟩,
        fun _ => ⟨le_refl 1, h2, fun j hj1 hj2 => ?_⟩,
        fun h => Bool.noConfusion h, rfl, ?_⟩
      · have hj2' : j < x + 1 - 1 := hj2
        omega
      · show 1 ≤ (mr - (x : ℤ)).toNat
        omega
  | case2 x h1 h2 h3 =>
      have hred : backoffAux fn mr d x = ⟨false, 1, []⟩ := by
        rw [backoffAux]; simp [h1, h2, h3]
      rw [hred]
      refine ⟨⟨fun h => Bool.noConfusion h, ?_⟩,
        fun h => Bool.noConfusion h, fun _ => ?_, rfl, ?_⟩
      · rintro ⟨j, hj1, hj2, hj3⟩
        have hx : j = x := by omega
        rw [hx] at hj3
        exact absurd hj3 h2
      · show 1 = (mr - (x : ℤ)).toNat
        omega
      · show 1 ≤ (mr - (x : ℤ)).toNat
        omega
  | case3 x h1 h2 h3 ih =>
      have hred : backoffAux fn mr d x =
          ⟨(backoffAux fn mr d (x + 1)).success, (backoffAux fn mr d (x + 1)).calls + 1,
            d * 2 ^ x :: (backoffAux fn mr d (x + 1)).sleeps⟩ := by
        rw [backoffAux]; simp [h1, h2, h3]
      rw [hred]
      obtain ⟨ih1, ih2, ih3, ih4, ih5⟩ := ih
      have hxf : fn x = false := by simpa using h2
      have hcalls : 1 ≤ (backoffAux fn mr d (x + 1)).calls := by
        cases hs : (backoffAux fn mr d (x + 1)).success with
        | true => exact (ih2 hs).1
        | false =>
            have := ih3 hs
            have hlt : x + 1 < mr := by omega
            omega
      refine ⟨?_, ?_, ?_, ?_, ?_⟩
      · show (backoffAux fn mr d (x + 1)).success = true ↔ _
        rw [ih1]
        constructor
        · rintro ⟨j, hj1, hj2, hj3⟩
          exact ⟨j, by omega, hj2, hj3⟩
        · rintro ⟨j, hj1, hj2, hj3⟩
          refine ⟨j, ?_, hj2, hj3⟩
          rcases Nat.eq_or_lt_of_le hj1 with h | h
          · subst h
            exact absurd hj3 h2
          · omega
      · intro hs
        obtain ⟨hc1, hc2, hc3⟩ := ih2 hs
        refine ⟨?_, ?_, ?_⟩
        · show 1 ≤ (backoffAux fn mr d (x + 1)).calls + 1
          omega
        · show fn (x + ((backoffAux fn mr d (x + 1)).calls + 1) - 1) = true
          have he : x + ((backoffAux fn mr d (x + 1)).calls + 1) - 1
              = x + 1 + (backoffAux fn mr d (x + 1)).calls - 1 := by omega
          rw [he]; exact hc2
        · intro j hj1 hj2
          have hj2' : j < x + ((backoffAux fn mr d (x + 1)).calls + 1) - 1 := hj2
          rcases Nat.eq_or_lt_of_le hj1 with h | h
          · subst h; exact hxf
          · exact hc3 j (by omega) (by omega)
      · intro hs
        have hs' : (backoffAux fn mr d (x + 1)).success = false := hs
        have := ih3 hs'
        show (backoffAux fn mr d (x + 1)).calls + 1 = (mr - (x : ℤ)).toNat
        omega
      · show d * 2 ^ x :: (backoffAux fn mr d (x + 1)).sleeps
            = (List.range' x ((backoffAux fn mr d (x + 1)).calls + 1 - 1)).map
                (fun j => d * 2 ^ j)
        have hc' : (backoffAux fn mr d (x + 1)).calls + 1 - 1
            = ((backoffAux fn mr d (x + 1)).calls - 1) + 1 := by omega
        rw [hc', List.range'_succ, List.map_cons, ← ih4]
      · show (backoffAux fn mr d (x + 1)).calls + 1 ≤ (mr - (x : ℤ)).toNat
        have : (backoffAux fn mr d (x + 1)).calls ≤ (mr - ((x : ℤ) + 1)).toNat := by
          simpa using ih5
        omega
  | case4 x h1 =>
      have hred : backoffAux fn mr d x = ⟨false, 0, []⟩ := by
        rw [backoffAux]; simp [h1]
      rw [hred]
      refine ⟨⟨fun h => Bool.noConfusion h, ?_⟩,
        fun h => Bool.noConfusion h, fun _ => ?_, rfl, ?_⟩
      · rintro ⟨j, hj1, hj2, hj3⟩
        omega
      · show 0 = (mr - (x : ℤ)).toNat
        omega
      · show 0 ≤ (mr - (x : ℤ)).toNat
        omega

/-- C6: the contract of `exponentialBackoff`: it returns `true` iff some
in-range invocation of the action succeeds; on success the final call is
the first succeeding attempt and nothing is invoked afterwards; if all
`maxRetries` invocations fail it returns `false` after exactly
`maxRetries` calls; the sleeps between consecutive failed invocations
are `initialDelay * 2 ^ attempt` for attempts `0, 1, …`, there are
`calls − 1 ≤ maxRetries − 1` of them, and none follows the final
failure. -/
theorem exponentialBackoff_contract (fn : ℕ → Bool) (mr : ℤ) (d : ℕ) :
    ((exponentialBackoff fn mr d).success = true ↔
      ∃ i : ℕ, (i : ℤ) < mr ∧ fn i = true)
    ∧ ((exponentialBackoff fn mr d).success = true →
        fn ((exponentialBackoff fn mr d).calls - 1) = true ∧
        ∀ j : ℕ, j < (exponentialBackoff fn mr d).calls - 1 → fn j = false)
    ∧ ((exponentialBackoff fn mr d).success = false →
        (exponentialBackoff fn mr d).calls = mr.toNat ∧
        ∀ i : ℕ, (i : ℤ) < mr → fn i = false)
    ∧ (exponentialBackoff fn mr d).sleeps
        = (List.range ((exponentialBackoff fn mr d).calls - 1)).map (fun i => d * 2 ^ i)
    ∧ (exponentialBackoff fn mr d).calls ≤ mr.toNat := by
  unfold exponentialBackoff
  obtain ⟨s1, s2, s3, s4, s5⟩ := backoffAux_spec fn mr d 0
  refine ⟨?_, ?_, ?_, ?_, ?_⟩
  · rw [s1]
    constructor
    · rintro ⟨j, -, hj2, hj3⟩
      exact ⟨j, hj2, hj3⟩
    · rintro ⟨j, hj2, hj3⟩
      exact ⟨j, Nat.zero_le j, hj2, hj3⟩
  · intro hs
    obtain ⟨-, c2, c3⟩ := s2 hs
    rw [Nat.zero_add] at c2
    refine ⟨c2, fun j hj => c3 j (Nat.zero_le j) (by omega)⟩
  · intro hs
    have h3 := s3 hs
    refine ⟨by omega, fun i hi => ?_⟩
    cases hfn : fn i with
    | false => rfl
    | true =>
        have : (backoffAux fn mr d 0).success = true :=
          s1.mpr ⟨i, Nat.zero_le i, hi, hfn⟩
        rw [hs] at this
        exact Bool.noConfusion this
  · rw [s4, List.range_eq_range']
  · omega

/-- Witness for `exponentialBackoff_contract`: the action succeeding on
its third invocation. -/
theorem exponentialBackoff_contract_witness :
    (fun i => decide (i = 2))
        ((exponentialBackoff (fun i => decide (i = 2)) 5 100).calls - 1) = true ∧
    (exponentialBackoff (fun i => decide (i = 2)) 5 100).calls ≤ (5 : ℤ).toNat :=
  ⟨((exponentialBackoff_contract (fun i => decide (i = 2)) 5 100).2.1
      (by simp [exponentialBackoff, backoffAux])).1,
    (exponentialBackoff_contract (fun i => decide (i = 2)) 5 100).2.2.2.2⟩

/-- C10: with a non-positive retry count `exponentialBackoff` returns
`false` having invoked the action zero times and slept zero times; in
general the action is invoked at most `maxRetries` times per call. -/
theorem exponentialBackoff_nonpositive (fn : ℕ → Bool) (mr : ℤ) (d : ℕ) :
    (mr ≤ 0 → exponentialBackoff fn mr d = ⟨false, 0, []⟩)
    ∧ (exponentialBackoff fn mr d).calls ≤ mr.toNat := by
  constructor
  · intro h
    unfold exponentialBackoff
    rw [backoffAux]
    have hn : ¬(((0 : ℕ) : ℤ) < mr) := by omega
    rw [dif_neg hn]
  · have h5 := (backoffAux_spec fn mr d 0).2.2.2.2
    unfold exponentialBackoff
    omega

/-- Witness for `exponentialBackoff_nonpositive` at `maxRetries = -2`. -/
theorem exponentialBackoff_nonpositive_witness :
    exponentialBackoff (fun _ => true) (-2) 7 = ⟨false, 0, []⟩ :=
  (exponentialBackoff_nonpositive (fun _ => true) (-2) 7).1 (by decide)

/-- C3: a Stage A/B backoff call whose five attempts all fail returns
`false`; the persistent outer delay then follows
`1000, 2000, 4000, 8000, 16000, 30000, 30000, …` — `failDelays 0 =
1000` being the delay in force after the preceding success — stays at
the 30000 cap from the fifth consecutive failure on, and resets to 1000
on any successful call. -/
theorem outer_delay_sequence :
    (∀ (fn : ℕ → Bool) (d : ℕ), (∀ i, i < 5 → fn i = false) →
      (exponentialBackoff fn 5 d).success = false)
    ∧ (List.range 7).map failDelays = [1000, 2000, 4000, 8000, 16000, 30000, 30000]
    ∧ (∀ n, 5 ≤ n → failDelays n = 30000)
    ∧ ∀ c, outerStep true c = 1000 := by
  refine ⟨?_, by decide, ?_, fun c => rfl⟩
  · intro fn d hf
    cases hs : (exponentialBackoff fn 5 d).success with
    | false => rfl
    | true =>
        obtain ⟨j, -, hj2, hj3⟩ := (backoffAux_spec fn 5 d 0).1.mp hs
        rw [hf j (by omega)] at hj3
        exact Bool.noConfusion hj3
  · intro n hn
    induction n with
    | zero => exact absurd hn (by omega)
    | succ m ih =>
        by_cases h : 5 ≤ m
        · show outerStep false (failDelays m) = 30000
          rw [ih h]; decide
        · have h5 : m + 1 = 5 := by omega
          rw [h5]; decide

/-- Witness for `outer_delay_sequence`: an always-failing action. -/
theorem outer_delay_sequence_witness :
    (exponentialBackoff (fun _ => false) 5 1000).success = false :=
  outer_delay_sequence.1 (fun _ => false) 1000 (fun _ _ => rfl)

/-- C9 counterexample: an iteration that finishes by exhausting its five
retries leaves `loading` asserted (`(false, true)`: the backoff failed
and `loading = true`), and one discarded by cancellation mid-flight also
leaves it asserted — `setLoading(false)` is only reached on the
publish path. -/
theorem loading_not_cleared_on_failure :
    stageIterationLoading (fun _ => AttemptOutcome.threw) false = (false, true) ∧
    stageIterationLoading (fun _ => AttemptOutcome.cancelled) false = (true, true) := by
  constructor <;> simp [stageIterationLoading, backoffLoadingAux]

/-- Loading state after the backoff loop from attempt `i` on, provided
at least one attempt runs: `loading` ends false exactly when the loop
stops at an attempt that publishes (`ok`), every earlier attempt having
thrown. -/
theorem backoffLoadingAux_false_iff (outcome : ℕ → AttemptOutcome) (mr : ℤ)
    (i : ℕ) (l : Bool) :
    (i : ℤ) < mr →
    ((backoffLoadingAux outcome mr i l).2 = false ↔
      ∃ j : ℕ, i ≤ j ∧ (j : ℤ) < mr ∧ outcome j = AttemptOutcome.ok ∧
        ∀ k : ℕ, i ≤ k → k < j → outcome k = AttemptOutcome.threw) := by
  induction i, l using backoffLoadingAux.induct outcome mr with
  | case1 x l h1 h2 =>
      intro _
      have hred : backoffLoadingAux outcome mr x l = (true, false) := by
        rw [backoffLoadingAux]; simp [h1, h2]
      rw [hred]
      exact ⟨fun _ => ⟨x, le_refl x, h1, h2, fun k hk1 hk2 => by omega⟩, fun _ => rfl⟩
  | case2 x l h1 h2 =>
      intro _
      have hred : backoffLoadingAux outcome mr x l = (true, true) := by
        rw [backoffLoadingAux]; simp [h1, h2]
      rw [hred]
      constructor
      · intro h; exact Bool.noConfusion h
      · rintro ⟨j, hj1, hj2, hjok, hjall⟩
        rcases Nat.eq_or_lt_of_le hj1 with h | h
        · rw [← h] at hjok
          rw [h2] at hjok
          exact AttemptOutcome.noConfusion hjok
        · have := hjall x (le_refl x) h
          rw [h2] at this
          exact AttemptOutcome.noConfusion this
  | case3 x l h1 h2 h3 =>
      intro _
      have hred : backoffLoadingAux outcome mr x l = (false, true) := by
        rw [backoffLoadingAux]; simp [h1, h2, h3]
      rw [hred]
      constructor
      · intro h; exact Bool.noConfusion h
      · rintro ⟨j, hj1, hj2, hjok, hjall⟩
        have hx : j = x := by omega
        rw [hx, h2] at hjok
        exact AttemptOutcome.noConfusion hjok
  | case4 x l h1 h2 h3 ih =>
      intro _
      have hred : backoffLoadingAux outcome mr x l
          = backoffLoadingAux outcome mr (x + 1) true := by
        rw [backoffLoadingAux]; simp [h1, h2, h3]
      rw [hred]
      have h4 : (((x + 1 : ℕ)) : ℤ) < mr := by push_cast; omega
      rw [ih h4]
      constructor
      · rintro ⟨j, hj1, hj2, hjok, hjall⟩
        refine ⟨j, by omega, hj2, hjok, fun k hk1 hk2 => ?_⟩
        rcases Nat.eq_or_lt_of_le hk1 with h | h
        · rw [← h]; exact h2
        · exact hjall k (by omega) hk2
      · rintro ⟨j, hj1, hj2, hjok, hjall⟩
        have hjx : x ≠ j := by
          intro he
          rw [← he, h2] at hjok
          exact AttemptOutcome.noConfusion hjok
        exact ⟨j, by omega, hj2, hjok, fun k hk1 hk2 => hjall k (by omega) hk2⟩
  | case5 x l h1 =>
      intro h
      exact absurd h h1

/-- C9 amended: across one Stage A/B polling iteration (five backoff
attempts), `loading` ends cleared exactly when some attempt publishes —
the RPC resolves, the liveness check passes and `setLoading(false)`
runs — after earlier attempts that all threw; on retry exhaustion or
mid-flight cancellation it stays asserted. -/
theorem stageIterationLoading_spec (outcome : ℕ → AttemptOutcome) (l : Bool) :
    (stageIterationLoading outcome l).2 = false ↔
      ∃ j : ℕ, j < 5 ∧ outcome j = AttemptOutcome.ok ∧
        ∀ k : ℕ, k < j → outcome k = AttemptOutcome.threw := by
  unfold stageIterationLoading
  rw [backoffLoadingAux_false_iff outcome 5 0 l (by decide)]
  constructor
  · rintro ⟨j, -, hj2, hjok, hjall⟩
    exact ⟨j, by exact_mod_cast hj2, hjok, fun k hk => hjall k (Nat.zero_le k) hk⟩
  · rintro ⟨j, hj1, hjok, hjall⟩
    exact ⟨j, Nat.zero_le j, by exact_mod_cast hj1, hjok, fun k _ hk => hjall k hk⟩

/-- A transfer instruction accepted by the payment-mode branch carries
an `info` whose destination is the watched target account — the
recipient in native mode, the resolved token account in token mode —
and whose source differs from it. -/
theorem instructionAmounts_some (recipient : String) (ata : Option String)
    (p : ParsedInstr) (msg : TxMessage) (meta : TxMeta) (pre post : ℚ)
    (h : instructionAmounts recipient ata p msg meta = some (pre, post)) :
    ∃ info : TransferInfo, p.parsed.info = some info ∧
      info.destination = some (ata.getD recipient) ∧
      info.source ≠ some (ata.getD recipient) := by
  cases ata with
  | none =>
      simp only [instructionAmounts] at h
      by_cases c1 : p.program = "system" ∧ p.parsed.type = some "transfer"
      · rw [if_pos c1] at h
        cases hinfo : p.parsed.info with
        | none =>
            rw [hinfo, Option.none_bind] at h
            simp at h
        | some info =>
            rw [hinfo, Option.some_bind, Option.some_bind] at h
            by_cases c2 : info.destination = some recipient
            · rw [if_pos c2] at h
              by_cases c3 : info.source = some recipient
              · rw [if_pos c3] at h; exact Option.noConfusion h
              · exact ⟨info, rfl, c2, c3⟩
            · rw [if_neg c2] at h; exact Option.noConfusion h
      · rw [if_neg c1] at h; exact Option.noConfusion h
  | some a =>
      simp only [instructionAmounts] at h
      by_cases c1 : p.program = "spl-token" ∧
          (p.parsed.type = some "transfer" ∨ p.parsed.type = some "transferChecked")
      · rw [if_pos c1] at h
        cases hinfo : p.parsed.info with
        | none =>
            rw [hinfo, Option.none_bind] at h
            simp at h
        | some info =>
            rw [hinfo, Option.some_bind, Option.some_bind] at h
            by_cases c2 : info.destination = some a
            · rw [if_pos c2] at h
              by_cases c3 : info.source = some a
              · rw [if_pos c3] at h; exact Option.noConfusion h
              · exact ⟨info, rfl, c2, c3⟩
            · rw [if_neg c2] at h; exact Option.noConfusion h
      · rw [if_neg c1] at h; exact Option.noConfusion h

/-- Inversion of the extraction rule: an emitted record comes from a
present transaction, metadata, signature status, non-zero timestamp,
confirmation status, a single parsed instruction accepted by the
payment-mode branch with a non-negative balance delta, and has exactly
the fields the source constructs. -/
theorem processTransaction_some_elim (recipient : String) (ata : Option String)
    (sig : String) (ptx : Option ParsedTx) (st : Option SigStatus)
    (tr : TransferRecord)
    (h : processTransaction recipient ata sig ptx st = some tr) :
    ∃ (tx : ParsedTx) (meta : TxMeta) (ss : SigStatus) (ts : ℕ)
      (status : ConfStatus) (p : ParsedInstr) (pre post : ℚ),
      ptx = some tx ∧ tx.meta = some meta ∧ st = some ss ∧
      tx.blockTime = some ts ∧ ss.confirmationStatus = some status ∧ ts ≠ 0 ∧
      tx.message.instructions = [Instruction.parsed p] ∧
      instructionAmounts recipient ata p tx.message meta = some (pre, post) ∧
      ¬post < pre ∧
      tr = ⟨sig, post - pre, ts, meta.err, status,
            if status = ConfStatus.finalized then MAX_CONFIRMATIONS
            else ss.confirmations.getD 0⟩ := by
  cases ptx with
  | none => simp [processTransaction] at h
  | some tx =>
    cases htm : tx.meta with
    | none => simp [processTransaction, htm] at h
    | some meta =>
      cases st with
      | none => simp [processTransaction, htm] at h
      | some ss =>
        cases hbt : tx.blockTime with
        | none => simp [processTransaction, htm, hbt] at h
        | some ts =>
          cases hcs : ss.confirmationStatus with
          | none => simp [processTransaction, htm, hbt, hcs] at h
          | some status =>
            by_cases hts : ts = 0
            · simp [processTransaction, htm, hbt, hcs, hts] at h
            · cases hins : tx.message.instructions with
              | nil => simp [processTransaction, htm, hbt, hcs, hts, hins] at h
              | cons i rest =>
                cases rest with
                | cons i2 rest2 =>
                    simp [processTransaction, htm, hbt, hcs, hts, hins] at h
                | nil =>
                  cases i with
                  | partiallyDecoded =>
                      simp [processTransaction, htm, hbt, hcs, hts, hins] at h
                  | parsed p =>
                    cases hia : instructionAmounts recipient ata p tx.message meta with
                    | none =>
                        simp [processTransaction, htm, hbt, hcs, hts, hins, hia] at h
                    | some prepost =>
                      obtain ⟨pre, post⟩ := prepost
                      by_cases hlt : post < pre
                      · simp [processTransaction, htm, hbt, hcs, hts, hins, hia, hlt] at h
                      · have h' : tr = ⟨sig, post - pre, ts, meta.err, status,
                            if status = ConfStatus.finalized then MAX_CONFIRMATIONS
                            else ss.confirmations.getD 0⟩ := by
                          have := h
                          simp [processTransaction, htm, hbt, hcs, hts, hins, hia, hlt] at this
                          exact this.symm
                        exact ⟨tx, meta, ss, ts, status, p, pre, post,
                          rfl, htm, rfl, hbt, hcs, hts, hins, hia, hlt, h'⟩

/-- C1: every TransferRecord emitted by the Stage B extraction has a
non-negative amount (the `postAmount < preAmount` guard), and comes from
a parsed single-instruction transfer whose destination is the watched
target — the recipient in native mode, the resolved token account in
token mode — and whose source differs from that destination (the
self-transfer guard). -/
theorem stageB_records_nonneg_no_self (recipient : String) (ata : Option String)
    (sigs : List String) (ptxs : List (Option ParsedTx))
    (sts : List (Option SigStatus)) (tr : TransferRecord)
    (h : tr ∈ stageBTransactions recipient ata sigs ptxs sts) :
    0 ≤ tr.amount ∧
    ∃ (i : ℕ) (tx : ParsedTx) (p : ParsedInstr) (info : TransferInfo),
      i < sigs.length ∧ ptxs.getD i none = some tx ∧
      tx.message.instructions = [Instruction.parsed p] ∧
      p.parsed.info = some info ∧
      info.destination = some (ata.getD recipient) ∧
      info.source ≠ info.destination := by
  obtain ⟨i, hi, hp⟩ := List.mem_filterMap.mp h
  obtain ⟨tx, meta, ss, ts, status, p, pre, post, hptx, hmeta, hst, hbt, hcs, hts,
    hins, hia, hlt, htr⟩ :=
    processTransaction_some_elim recipient ata (sigs.getD i "") (ptxs.getD i none)
      (sts.getD i none) tr hp
  obtain ⟨info, hinfo, hdest, hsrc⟩ :=
    instructionAmounts_some recipient ata p tx.message meta pre post hia
  subst htr
  refine ⟨?_, i, tx, p, info, List.mem_range.mp hi, hptx, hins, hinfo, hdest, ?_⟩
  · show (0 : ℚ) ≤ post - pre
    have := not_lt.mp hlt
    linarith
  · rw [hdest]
    exact hsrc

/-- Concrete native-mode transfer to recipient `"R"` (lamport balances
10 → 12 at the recipient's account index), used by witnesses. -/
def witTx : ParsedTx :=
  { meta := some { err := none, preBalances := [0, 10], postBalances := [0, 12],
                   preTokenBalances := none, postTokenBalances := none }
    blockTime := some 5
    message := { accountKeys := ["S", "R"]
                 instructions := [Instruction.parsed
                   { program := "system"
                     parsed := { type := some "transfer"
                                 info := some { source := some "S"
                                                destination := some "R" } } }] } }

/-- A `confirmed` signature status with 3 raw confirmations. -/
def witSs : SigStatus :=
  { confirmationStatus := some ConfStatus.confirmed, confirmations := some 3 }

/-- A `finalized` signature status with 7 raw confirmations. -/
def witSsF : SigStatus :=
  { confirmationStatus := some ConfStatus.finalized, confirmations := some 7 }

/-- Witness for `stageB_records_nonneg_no_self` on the concrete ledger
answer `witTx`/`witSs`. -/
theorem stageB_wit_eval :
    stageBTransactions "R" none ["sig1"] [some witTx] [some witSs]
      = [⟨"sig1", 2 / 1000000000, 5, none, ConfStatus.confirmed, 3⟩] := by
  have hsr : ("S" : String) ≠ "R" := by decide
  have hcf : ConfStatus.confirmed ≠ ConfStatus.finalized := by decide
  norm_num [stageBTransactions, processTransaction, instructionAmounts,
    nativeAmounts, witTx, witSs, LAMPORTS_PER_SOL, List.range, List.range',
    List.filterMap, hsr, hcf]

theorem stageB_records_nonneg_no_self_witness :
    0 ≤ (⟨"sig1", 2 / 1000000000, 5, none, ConfStatus.confirmed, 3⟩ :
      TransferRecord).amount :=
  (stageB_records_nonneg_no_self "R" none ["sig1"] [some witTx] [some witSs]
    ⟨"sig1", 2 / 1000000000, 5, none, ConfStatus.confirmed, 3⟩
    (by rw [stageB_wit_eval]; exact List.mem_singleton.mpr rfl)).1

/-- C8: an emitted record whose status is `finalized` carries
`confirmations = MAX_CONFIRMATIONS` exactly; with any other status it
carries the ledger-supplied raw confirmation count, defaulting to 0 when
that count is absent. -/
theorem confirmations_clamped (recipient : String) (ata : Option String)
    (sig : String) (ptx : Option ParsedTx) (st : Option SigStatus)
    (tr : TransferRecord)
    (h : processTransaction recipient ata sig ptx st = some tr) :
    (tr.status = ConfStatus.finalized → tr.confirmations = MAX_CONFIRMATIONS) ∧
    (tr.status ≠ ConfStatus.finalized →
      ∃ ss : SigStatus, st = some ss ∧ ss.confirmationStatus = some tr.status ∧
        tr.confirmations = ss.confirmations.getD 0) := by
  obtain ⟨tx, meta, ss, ts, status, p, pre, post, hptx, hmeta, hst, hbt, hcs, hts,
    hins, hia, hlt, htr⟩ :=
    processTransaction_some_elim recipient ata sig ptx st tr h
  subst htr
  constructor
  · intro hf
    have hf' : status = ConfStatus.finalized := hf
    simp [hf']
  · intro hnf
    have hnf' : ¬status = ConfStatus.finalized := hnf
    exact ⟨ss, hst, hcs, by simp [hnf']⟩

/-- Witness for `confirmations_clamped`: a finalized record is clamped
to `MAX_CONFIRMATIONS` despite a raw count of 7. -/
theorem confirmations_clamped_witness :
    (⟨"sig1", 2 / 1000000000, 5, none, ConfStatus.finalized, MAX_CONFIRMATIONS⟩ :
      TransferRecord).confirmations = MAX_CONFIRMATIONS :=
  (confirmations_clamped "R" none "sig1" (some witTx) (some witSsF)
    ⟨"sig1", 2 / 1000000000, 5, none, ConfStatus.finalized, MAX_CONFIRMATIONS⟩
    (by
      have hsr : ("S" : String) ≠ "R" := by decide
      norm_num [processTransaction, instructionAmounts, nativeAmounts, witTx,
        witSsF, LAMPORTS_PER_SOL, MAX_CONFIRMATIONS, hsr])).1 rfl

end SolanaPayUI
